import Mathlib

/-!
Verification of the kokoro-tts core against its specification.

The development shallowly embeds the relevant parts of the repository:

* `api/src/services/text_processing/text_processor.py`
  (`get_sentence_info`, `smart_split`) — text is modelled as `List Char`,
  the external normalize/phonemize/tokenize pipeline (`process_text_chunk`)
  as an abstract tokenizer `Tok := List Char → List Nat`.
* `api/src/inference/model_manager.py`
  (`ModelManager.initialize_with_warmup`, `load_model`, `generate`,
  `unload_all`, the idle-check watchdog, `get_manager`).
* `api/src/routers/openai_compatible.py`
  (`get_tts_service`, `stream_audio_chunks`, `dual_output`).

Stateful / asynchronous code is modelled as explicit state passing or as
small labelled transition systems whose atomic steps are exactly the
synchronous blocks between `await` suspension points of the Python source
(asyncio is single-threaded and cooperative).
-/

namespace KokoroTTS

/-! ## Text chunking: `text_processor.py` -/

/-- Abstract tokenizer: the external normalize → phonemize → tokenize
pipeline of `process_text_chunk` (deterministic, total, per the spec's
collaborator contract). -/
abbrev Tok := List Char → List Nat

/-- Python `str.strip()` whitespace characters (ASCII). -/
def pyWhitespace (c : Char) : Bool :=
  c = ' ' || c = '\t' || c = '\n' || c = '\x0d' || c = '\x0b' || c = '\x0c'

/-- Python `s.strip()`: drop leading and trailing whitespace. -/
def pyStrip (s : List Char) : List Char :=
  ((s.dropWhile pyWhitespace).reverse.dropWhile pyWhitespace).reverse

/-- The sentence-terminal punctuation class of `re.split(r"([.!?;:])", text)`. -/
def isSentencePunct (c : Char) : Bool :=
  c = '.' || c = '!' || c = '?' || c = ';' || c = ':'

/-- The clause delimiter class of `re.split(r"([,])", sentence)`. -/
def isComma (c : Char) : Bool := c = ','

/-- `re.split` with a single-character capturing class, already paired the
way both loops in the source consume it (`for i in range(0, len, 2)` with
`punct = parts[i+1] if i + 1 < len(parts) else ""`): a list of
(body, following delimiter) pairs, the last pair having no delimiter. -/
def splitCapture (isDelim : Char → Bool) : List Char → List (List Char × Option Char)
  | [] => [([], none)]
  | c :: rest =>
    let tl := splitCapture isDelim rest
    if isDelim c then ([], some c) :: tl
    else
      match tl with
      | [] => [([c], none)]
      | (b, d) :: tl2 => (c :: b, d) :: tl2

/-- One iteration of the pairing loop in `get_sentence_info`: strip the
body, drop it when empty, otherwise re-attach the trailing punctuation and
tokenize. -/
def sentenceOfPart (tok : Tok) (p : List Char × Option Char) :
    Option (List Char × List Nat × Nat) :=
  let s := pyStrip p.1
  if s.isEmpty then none
  else
    let full := s ++ p.2.toList
    some (full, tok full, (tok full).length)

/-- `get_sentence_info(text)`: split on terminal punctuation, keep each
sentence with its punctuation, tokenize, and record the token count. -/
def get_sentence_info (tok : Tok) (text : List Char) :
    List (List Char × List Nat × Nat) :=
  (splitCapture isSentencePunct text).filterMap (sentenceOfPart tok)

/-- The clause units an over-long sentence is split into inside
`smart_split`: split on commas, strip each clause body, drop empty bodies,
re-attach the trailing comma. -/
def clauseUnits (s : List Char) : List (List Char) :=
  (splitCapture isComma s).filterMap (fun p =>
    let c := pyStrip p.1
    if c.isEmpty then none else some (c ++ p.2.toList))

/-- An emitted chunk: the source yields `(" ".join(units), tokens)` and
logs the accumulated token count; we keep all three fields. -/
structure Chunk where
  units : List (List Char)
  tokens : List Nat
  count : Nat
deriving DecidableEq

/-- The running clause sub-chunk of the over-long-sentence branch of
`smart_split` (`clause_chunk`, `clause_tokens`, `clause_count`) together
with the chunks already yielded from it. -/
structure CState where
  out : List Chunk
  chunk : List (List Char)
  tokens : List Nat
  count : Nat
deriving DecidableEq

/-- One iteration of the clause loop of `smart_split`: append the clause
while the running total stays within both `max_tokens` and
`settings.target_max_tokens`, otherwise yield the running sub-chunk (when
non-empty) and restart from this clause alone. -/
def clauseStep (tok : Tok) (maxT targetMax : Nat) (st : CState) (u : List Char) :
    CState :=
  let tks := tok u
  let n := tks.length
  if st.count + n ≤ maxT ∧ st.count + n ≤ targetMax then
    { st with
      chunk := st.chunk ++ [u]
      tokens := st.tokens ++ tks
      count := st.count + n }
  else
    { out := st.out ++ (if st.chunk.isEmpty then [] else [⟨st.chunk, st.tokens, st.count⟩])
      chunk := [u]
      tokens := tks
      count := n }

/-- "Don't forget last clause chunk": yield the trailing sub-chunk when
non-empty. -/
def flushC (st : CState) : List Chunk :=
  st.out ++ (if st.chunk.isEmpty then [] else [⟨st.chunk, st.tokens, st.count⟩])

/-- The whole clause loop of `smart_split` over the clause units of one
over-long sentence. -/
def runClauses (tok : Tok) (maxT targetMax : Nat) (us : List (List Char)) :
    List Chunk :=
  flushC (us.foldl (clauseStep tok maxT targetMax) ⟨[], [], [], 0⟩)

/-- The running chunk of `smart_split` (`current_chunk`, `current_tokens`,
`current_count`) together with the chunks already yielded. -/
structure MState where
  out : List Chunk
  cur : List (List Char)
  curTokens : List Nat
  curCount : Nat
deriving DecidableEq

/-- One iteration of the sentence loop of `smart_split`, with the source's
branches in order: (1) sentence over `max_tokens` → flush and enter the
clause loop; (2) running count at least `target_min` and the sentence
would push it past `target_max` → yield (unconditionally) and restart;
(3) fits within `target_max` → append; (4) fits within `max_tokens` while
still under `target_min` → append anyway; (5) otherwise flush (when
non-empty) and restart. -/
def sentenceStep (tok : Tok) (maxT targetMin targetMax : Nat)
    (st : MState) (s : List Char × List Nat × Nat) : MState :=
  let sent := s.1
  let tks := s.2.1
  let n := s.2.2
  if maxT < n then
    { out :=
        (st.out ++ (if st.cur.isEmpty then [] else [⟨st.cur, st.curTokens, st.curCount⟩]))
          ++ runClauses tok maxT targetMax (clauseUnits sent)
      cur := []
      curTokens := []
      curCount := 0 }
  else if targetMin ≤ st.curCount ∧ targetMax < st.curCount + n then
    { out := st.out ++ [⟨st.cur, st.curTokens, st.curCount⟩]
      cur := [sent]
      curTokens := tks
      curCount := n }
  else if st.curCount + n ≤ targetMax then
    { st with
      cur := st.cur ++ [sent]
      curTokens := st.curTokens ++ tks
      curCount := st.curCount + n }
  else if st.curCount + n ≤ maxT ∧ st.curCount < targetMin then
    { st with
      cur := st.cur ++ [sent]
      curTokens := st.curTokens ++ tks
      curCount := st.curCount + n }
  else
    { out := st.out ++ (if st.cur.isEmpty then [] else [⟨st.cur, st.curTokens, st.curCount⟩])
      cur := [sent]
      curTokens := tks
      curCount := n }

/-- `smart_split(text, max_tokens)` with the two `settings` thresholds made
explicit parameters: the list of chunks the async generator yields, in
order (defaults: `max_tokens = 450`, `target_min = 175`,
`target_max = 250` from `core/config.py`). -/
def smart_split (tok : Tok) (maxT targetMin targetMax : Nat) (text : List Char) :
    List Chunk :=
  let fin :=
    (get_sentence_info tok text).foldl (sentenceStep tok maxT targetMin targetMax)
      ⟨[], [], [], 0⟩
  fin.out ++ (if fin.cur.isEmpty then [] else [⟨fin.cur, fin.curTokens, fin.curCount⟩])

/-- A concrete tokenizer (one token per character) used to instantiate the
universally quantified theorems at concrete inputs. -/
def charTok : Tok := fun s => s.map Char.toNat

/-! ### Whitespace-only input (claim C3) -/

theorem dropWhile_eq_nil_of_all {p : Char → Bool} :
    ∀ {s : List Char}, (∀ c ∈ s, p c = true) → s.dropWhile p = [] := by
  intro s
  induction s with
  | nil => intro _; rfl
  | cons c rest ih =>
    intro h
    rw [List.dropWhile_cons]
    simp only [h c (List.mem_cons_self c rest)]
    exact ih (fun x hx => h x (List.mem_cons_of_mem c hx))

theorem pyStrip_eq_nil_of_all_whitespace {s : List Char}
    (h : ∀ c ∈ s, pyWhitespace c = true) : pyStrip s = [] := by
  unfold pyStrip
  rw [dropWhile_eq_nil_of_all h]
  rfl

theorem whitespace_not_sentencePunct {c : Char}
    (h : pyWhitespace c = true) : isSentencePunct c = false := by
  unfold pyWhitespace at h
  simp only [Bool.or_eq_true, decide_eq_true_eq] at h
  rcases h with ((((h | h) | h) | h) | h) | h <;> subst h <;> rfl

theorem splitCapture_no_delim {isDelim : Char → Bool} :
    ∀ {s : List Char}, (∀ c ∈ s, isDelim c = false) →
      splitCapture isDelim s = [(s, none)] := by
  intro s
  induction s with
  | nil => intro _; rfl
  | cons c rest ih =>
    intro h
    unfold splitCapture
    rw [ih (fun x hx => h x (List.mem_cons_of_mem c hx))]
    simp [h c (List.mem_cons_self c rest)]

theorem get_sentence_info_whitespace (tok : Tok) {text : List Char}
    (h : ∀ c ∈ text, pyWhitespace c = true) :
    get_sentence_info tok text = [] := by
  unfold get_sentence_info
  rw [splitCapture_no_delim (fun c hc => whitespace_not_sentencePunct (h c hc))]
  unfold sentenceOfPart
  simp [pyStrip_eq_nil_of_all_whitespace h]

/-- C3: on empty or whitespace-only input, `smart_split` yields no chunks
(and, being a total function of its inputs, raises no error). -/
theorem smart_split_whitespace_empty (tok : Tok) (maxT targetMin targetMax : Nat)
    {text : List Char} (h : ∀ c ∈ text, pyWhitespace c = true) :
    smart_split tok maxT targetMin targetMax text = [] := by
  unfold smart_split
  rw [get_sentence_info_whitespace tok h]
  rfl

/-- C3 witness: the empty string and a three-space string both yield an
empty chunk sequence. -/
theorem smart_split_whitespace_empty_witness :
    smart_split charTok 450 175 250 [] = [] ∧
      smart_split charTok 450 175 250 [' ', ' ', ' '] = [] :=
  ⟨smart_split_whitespace_empty charTok 450 175 250 (by decide),
   smart_split_whitespace_empty charTok 450 175 250 (by decide)⟩

/-! ### Unit conservation (claim C2) -/

/-- The flattened sentence/clause units carried by a list of chunks. -/
def chunkUnits (l : List Chunk) : List (List Char) := l.flatMap Chunk.units

/-- Units held by a clause-loop state: already-yielded chunks followed by
the running sub-chunk. -/
def cMeasure (st : CState) : List (List Char) := chunkUnits st.out ++ st.chunk

/-- Units held by a sentence-loop state: already-yielded chunks followed by
the running chunk. -/
def mMeasure (st : MState) : List (List Char) := chunkUnits st.out ++ st.cur

/-- The units a single sentence contributes to the output: its clause
units when it is over `max_tokens`, otherwise the sentence itself. -/
def sentUnits (maxT : Nat) (s : List Char × List Nat × Nat) : List (List Char) :=
  if maxT < s.2.2 then clauseUnits s.1 else [s.1]

theorem chunkUnits_append (a b : List Chunk) :
    chunkUnits (a ++ b) = chunkUnits a ++ chunkUnits b :=
  List.flatMap_append a b Chunk.units

theorem chunkUnits_nil : chunkUnits [] = [] := rfl

theorem chunkUnits_singleton (c : Chunk) : chunkUnits [c] = c.units := by
  simp [chunkUnits]

theorem chunkUnits_cons (c : Chunk) (l : List Chunk) :
    chunkUnits (c :: l) = c.units ++ chunkUnits l := by
  simp [chunkUnits]

theorem cMeasure_clauseStep (tok : Tok) (maxT targetMax : Nat) (st : CState)
    (u : List Char) :
    cMeasure (clauseStep tok maxT targetMax st u) = cMeasure st ++ [u] := by
  unfold clauseStep cMeasure
  by_cases hcond : st.count + (tok u).length ≤ maxT ∧ st.count + (tok u).length ≤ targetMax
  · simp [hcond]
  · rcases hc : st.chunk with _ | ⟨x, xs⟩
    · simp [hcond, hc, chunkUnits_append, chunkUnits_singleton]
    · simp [hcond, hc, chunkUnits_append, chunkUnits_singleton]

theorem cMeasure_foldl (tok : Tok) (maxT targetMax : Nat) :
    ∀ (us : List (List Char)) (st : CState),
      cMeasure (us.foldl (clauseStep tok maxT targetMax) st) = cMeasure st ++ us := by
  intro us
  induction us with
  | nil => intro st; simp
  | cons u rest ih =>
    intro st
    rw [List.foldl_cons, ih, cMeasure_clauseStep]
    simp

theorem chunkUnits_flushC (st : CState) : chunkUnits (flushC st) = cMeasure st := by
  unfold flushC cMeasure
  rcases hc : st.chunk with _ | ⟨x, xs⟩
  · simp [hc]
  · simp [hc, chunkUnits_append, chunkUnits_singleton]

theorem runClauses_units (tok : Tok) (maxT targetMax : Nat)
    (us : List (List Char)) :
    chunkUnits (runClauses tok maxT targetMax us) = us := by
  unfold runClauses
  rw [chunkUnits_flushC, cMeasure_foldl]
  rfl

theorem mMeasure_sentenceStep (tok : Tok) (maxT targetMin targetMax : Nat)
    (st : MState) (s : List Char × List Nat × Nat) :
    mMeasure (sentenceStep tok maxT targetMin targetMax st s) =
      mMeasure st ++ sentUnits maxT s := by
  obtain ⟨sent, tks, n⟩ := s
  unfold sentenceStep mMeasure sentUnits
  dsimp only
  by_cases h1 : maxT < n
  · rcases hc : st.cur with _ | ⟨x, xs⟩
    · simp [h1, hc, chunkUnits_append, chunkUnits_singleton, chunkUnits_cons,
        runClauses_units]
    · simp [h1, hc, chunkUnits_append, chunkUnits_singleton, chunkUnits_cons,
        runClauses_units]
  · by_cases h2 : targetMin ≤ st.curCount ∧ targetMax < st.curCount + n
    · simp [h1, h2, chunkUnits_append, chunkUnits_singleton]
    · by_cases h3 : st.curCount + n ≤ targetMax
      · simp [h1, h2, h3]
      · by_cases h4 : st.curCount + n ≤ maxT ∧ st.curCount < targetMin
        · simp [h1, h2, h3, h4]
        · rcases hc : st.cur with _ | ⟨x, xs⟩
          · simp [h1, h2, h3, h4, hc, chunkUnits_append]
          · simp [h1, h2, h3, h4, hc, chunkUnits_append, chunkUnits_singleton]

theorem mMeasure_foldl (tok : Tok) (maxT targetMin targetMax : Nat) :
    ∀ (sents : List (List Char × List Nat × Nat)) (st : MState),
      mMeasure (sents.foldl (sentenceStep tok maxT targetMin targetMax) st) =
        mMeasure st ++ sents.flatMap (sentUnits maxT) := by
  intro sents
  induction sents with
  | nil => intro st; simp
  | cons s rest ih =>
    intro st
    rw [List.foldl_cons, ih, mMeasure_sentenceStep]
    simp

/-- C2: the in-order concatenation of the unit lists of all chunks emitted
by `smart_split` is exactly the sentence/clause sequence of the input (each
over-long sentence replaced by its clause units), and every sentence part
with a non-empty stripped body survives into `get_sentence_info` (only
empty bodies, from repeated punctuation, are dropped). -/
theorem smart_split_reconstructs (tok : Tok) (maxT targetMin targetMax : Nat)
    (text : List Char) :
    chunkUnits (smart_split tok maxT targetMin targetMax text) =
        (get_sentence_info tok text).flatMap (sentUnits maxT) ∧
      ∀ p ∈ splitCapture isSentencePunct text, pyStrip p.1 ≠ [] →
        (pyStrip p.1 ++ p.2.toList) ∈
          (get_sentence_info tok text).map (fun s => s.1) := by
  constructor
  · unfold smart_split
    have hfold := mMeasure_foldl tok maxT targetMin targetMax
      (get_sentence_info tok text) ⟨[], [], [], 0⟩
    set fin := (get_sentence_info tok text).foldl
      (sentenceStep tok maxT targetMin targetMax) ⟨[], [], [], 0⟩ with hfin
    have hm : mMeasure fin = (get_sentence_info tok text).flatMap (sentUnits maxT) := by
      rw [hfold]; rfl
    rcases hc : fin.cur with _ | ⟨x, xs⟩
    · rw [← hm]
      unfold mMeasure
      simp [hc]
    · rw [← hm]
      unfold mMeasure
      simp [hc, chunkUnits_append, chunkUnits]
  · intro p hp hne
    apply List.mem_map.mpr
    refine ⟨(pyStrip p.1 ++ p.2.toList, tok (pyStrip p.1 ++ p.2.toList),
      (tok (pyStrip p.1 ++ p.2.toList)).length), ?_, rfl⟩
    apply List.mem_filterMap.mpr
    refine ⟨p, hp, ?_⟩
    unfold sentenceOfPart
    simp only [List.isEmpty_iff]
    rw [if_neg hne]

/-- C2 witness: instantiation on the text `"Hi there. Ok!"` with the
character tokenizer, at the sentence part `("Hi there", '.')`. -/
theorem smart_split_reconstructs_witness :
    chunkUnits (smart_split charTok 450 175 250 "Hi there. Ok!".data) =
        (get_sentence_info charTok "Hi there. Ok!".data).flatMap (sentUnits 450) ∧
      (("Hi there".data, some '.') ∈ splitCapture isSentencePunct "Hi there. Ok!".data ∧
        pyStrip "Hi there".data ≠ [] ∧
        (pyStrip "Hi there".data ++ (some '.').toList) ∈
          (get_sentence_info charTok "Hi there. Ok!".data).map (fun s => s.1)) :=
  ⟨(smart_split_reconstructs charTok 450 175 250 "Hi there. Ok!".data).1,
   by decide,
   by decide,
   (smart_split_reconstructs charTok 450 175 250 "Hi there. Ok!".data).2
     ("Hi there".data, some '.') (by decide) (by decide)⟩

/-! ### Chunk size bounds (claim C1) -/

/-- A well-formed emitted chunk: its logged count is the length of its
token-id list, and it is within `max_tokens` unless it is a single unit
(drawn from `P`) that exceeds `max_tokens` on its own. -/
def goodChunk (tok : Tok) (maxT : Nat) (P : List Char → Prop) (c : Chunk) : Prop :=
  c.count = c.tokens.length ∧
    (c.count ≤ maxT ∨
      (maxT < c.count ∧ ∃ u, c.units = [u] ∧ c.tokens = tok u ∧ P u))

/-- Invariant of the clause loop: yielded chunks are well formed, the
running count tracks the running token list, and the running sub-chunk is
within `max_tokens` unless it is a lone oversized clause. -/
def invC (tok : Tok) (maxT : Nat) (P : List Char → Prop) (st : CState) : Prop :=
  (∀ c ∈ st.out, goodChunk tok maxT P c) ∧
    st.count = st.tokens.length ∧
    (st.count ≤ maxT ∨
      (maxT < st.count ∧ ∃ u, st.chunk = [u] ∧ st.tokens = tok u ∧ P u))

theorem invC_flush {tok : Tok} {maxT : Nat} {P : List Char → Prop} {st : CState}
    (h : invC tok maxT P st) : ∀ c ∈ flushC st, goodChunk tok maxT P c := by
  obtain ⟨hout, hlen, hbound⟩ := h
  intro c hc
  unfold flushC at hc
  rcases List.mem_append.mp hc with hmem | hmem
  · exact hout c hmem
  · by_cases he : st.chunk.isEmpty = true
    · rw [if_pos he] at hmem; cases hmem
    · rw [if_neg he, List.mem_singleton] at hmem
      subst hmem
      exact ⟨hlen, hbound⟩

theorem clauseStep_inv {tok : Tok} {maxT targetMax : Nat} {P : List Char → Prop}
    {st : CState} {u : List Char} (hPu : P u) (h : invC tok maxT P st) :
    invC tok maxT P (clauseStep tok maxT targetMax st u) := by
  obtain ⟨hout, hlen, hbound⟩ := h
  unfold clauseStep
  by_cases hcond : st.count + (tok u).length ≤ maxT ∧ st.count + (tok u).length ≤ targetMax
  · rw [if_pos hcond]
    refine ⟨hout, ?_, Or.inl hcond.1⟩
    simp [hlen]
  · rw [if_neg hcond]
    refine ⟨?_, rfl, ?_⟩
    · intro c hc
      rcases List.mem_append.mp hc with hmem | hmem
      · exact hout c hmem
      · by_cases he : st.chunk.isEmpty = true
        · rw [if_pos he] at hmem; cases hmem
        · rw [if_neg he, List.mem_singleton] at hmem
          subst hmem
          exact ⟨hlen, hbound⟩
    · by_cases hn : (tok u).length ≤ maxT
      · exact Or.inl hn
      · exact Or.inr ⟨Nat.lt_of_not_le hn, u, rfl, rfl, hPu⟩

theorem foldl_clause_inv {tok : Tok} {maxT targetMax : Nat} {P : List Char → Prop} :
    ∀ {us : List (List Char)} {st : CState}, (∀ u ∈ us, P u) →
      invC tok maxT P st →
      invC tok maxT P (us.foldl (clauseStep tok maxT targetMax) st) := by
  intro us
  induction us with
  | nil => intro st _ h; exact h
  | cons u rest ih =>
    intro st hP h
    rw [List.foldl_cons]
    exact ih (fun x hx => hP x (List.mem_cons_of_mem u hx))
      (clauseStep_inv (hP u (List.mem_cons_self u rest)) h)

theorem runClauses_good {tok : Tok} {maxT targetMax : Nat} {P : List Char → Prop}
    {us : List (List Char)} (hP : ∀ u ∈ us, P u) :
    ∀ c ∈ runClauses tok maxT targetMax us, goodChunk tok maxT P c := by
  unfold runClauses
  exact invC_flush (foldl_clause_inv hP
    ⟨fun c hc => absurd hc (List.not_mem_nil c), rfl, Or.inl (Nat.zero_le _)⟩)

/-- `u` is one of the clause units of a sentence of `text` whose own token
count exceeds `max_tokens` (the only units the clause loop ever runs on). -/
def isOversizedClause (tok : Tok) (maxT : Nat) (text : List Char)
    (u : List Char) : Prop :=
  ∃ s ∈ get_sentence_info tok text, maxT < s.2.2 ∧ u ∈ clauseUnits s.1

/-- Invariant of the sentence loop: yielded chunks are well formed, the
running count tracks the running token list and never exceeds
`max_tokens`. -/
def invM (tok : Tok) (maxT : Nat) (P : List Char → Prop) (st : MState) : Prop :=
  (∀ c ∈ st.out, goodChunk tok maxT P c) ∧
    st.curCount = st.curTokens.length ∧ st.curCount ≤ maxT

theorem get_sentence_info_count_len {tok : Tok} {text : List Char} :
    ∀ s ∈ get_sentence_info tok text, s.2.2 = s.2.1.length := by
  intro s hs
  obtain ⟨p, _, he⟩ := List.mem_filterMap.mp hs
  unfold sentenceOfPart at he
  by_cases hemp : (pyStrip p.1).isEmpty = true
  · rw [if_pos hemp] at he; cases he
  · rw [if_neg hemp] at he
    cases he
    rfl

theorem sentenceStep_inv {tok : Tok} {maxT targetMin targetMax : Nat}
    {P : List Char → Prop} {st : MState} {s : List Char × List Nat × Nat}
    (hTM : targetMax ≤ maxT)
    (hs1 : s.2.2 = s.2.1.length)
    (hs2 : maxT < s.2.2 → ∀ u ∈ clauseUnits s.1, P u)
    (h : invM tok maxT P st) :
    invM tok maxT P (sentenceStep tok maxT targetMin targetMax st s) := by
  obtain ⟨hout, hlen, hbound⟩ := h
  obtain ⟨sent, tks, n⟩ := s
  simp only at hs1 hs2
  unfold sentenceStep
  dsimp only
  by_cases h1 : maxT < n
  · rw [if_pos h1]
    refine ⟨?_, rfl, Nat.zero_le _⟩
    intro c hc
    rcases List.mem_append.mp hc with hmem | hmem
    · rcases List.mem_append.mp hmem with hm2 | hm2
      · exact hout c hm2
      · by_cases he : st.cur.isEmpty = true
        · rw [if_pos he] at hm2; cases hm2
        · rw [if_neg he, List.mem_singleton] at hm2
          subst hm2
          exact ⟨hlen, Or.inl hbound⟩
    · exact runClauses_good (hs2 h1) c hmem
  · rw [if_neg h1]
    by_cases h2 : targetMin ≤ st.curCount ∧ targetMax < st.curCount + n
    · rw [if_pos h2]
      refine ⟨?_, hs1, Nat.le_of_not_lt h1⟩
      intro c hc
      rcases List.mem_append.mp hc with hmem | hmem
      · exact hout c hmem
      · rw [List.mem_singleton] at hmem
        subst hmem
        exact ⟨hlen, Or.inl hbound⟩
    · rw [if_neg h2]
      by_cases h3 : st.curCount + n ≤ targetMax
      · rw [if_pos h3]
        refine ⟨hout, ?_, Nat.le_trans h3 hTM⟩
        simp [hlen, hs1]
      · rw [if_neg h3]
        by_cases h4 : st.curCount + n ≤ maxT ∧ st.curCount < targetMin
        · rw [if_pos h4]
          refine ⟨hout, ?_, h4.1⟩
          simp [hlen, hs1]
        · rw [if_neg h4]
          refine ⟨?_, hs1, Nat.le_of_not_lt h1⟩
          intro c hc
          rcases List.mem_append.mp hc with hmem | hmem
          · exact hout c hmem
          · by_cases he : st.cur.isEmpty = true
            · rw [if_pos he] at hmem; cases hmem
            · rw [if_neg he, List.mem_singleton] at hmem
              subst hmem
              exact ⟨hlen, Or.inl hbound⟩

theorem foldl_main_inv {tok : Tok} {maxT targetMin targetMax : Nat}
    {P : List Char → Prop} (hTM : targetMax ≤ maxT) :
    ∀ {sents : List (List Char × List Nat × Nat)} {st : MState},
      (∀ s ∈ sents, s.2.2 = s.2.1.length ∧ (maxT < s.2.2 → ∀ u ∈ clauseUnits s.1, P u)) →
      invM tok maxT P st →
      invM tok maxT P (sents.foldl (sentenceStep tok maxT targetMin targetMax) st) := by
  intro sents
  induction sents with
  | nil => intro st _ h; exact h
  | cons s rest ih =>
    intro st hs h
    rw [List.foldl_cons]
    have hhead := hs s (List.mem_cons_self s rest)
    exact ih (fun x hx => hs x (List.mem_cons_of_mem s hx))
      (sentenceStep_inv hTM hhead.1 hhead.2 h)

/-- C1: every chunk emitted by `smart_split` has its logged token count
equal to the length of its token-id list, and stays within `max_tokens`
except when the chunk is a single clause/sentence unit of the input whose
own tokenization alone exceeds `max_tokens` — such a unit is still emitted
(as its own oversized chunk), not dropped. Requires
`target_max_tokens ≤ max_tokens`, which holds for the configured values
(250 ≤ 450). -/
theorem smart_split_chunk_bounds (tok : Tok) (maxT targetMin targetMax : Nat)
    (text : List Char) (hTM : targetMax ≤ maxT) :
    ∀ c ∈ smart_split tok maxT targetMin targetMax text,
      c.count = c.tokens.length ∧
        (c.count ≤ maxT ∨
          ∃ u, c.units = [u] ∧ c.tokens = tok u ∧ maxT < (tok u).length ∧
            isOversizedClause tok maxT text u) := by
  intro c hc
  have hinv : invM tok maxT (isOversizedClause tok maxT text)
      ((get_sentence_info tok text).foldl
        (sentenceStep tok maxT targetMin targetMax) ⟨[], [], [], 0⟩) := by
    apply foldl_main_inv hTM
    · intro s hs
      exact ⟨get_sentence_info_count_len s hs,
        fun hbig u hu => ⟨s, hs, hbig, hu⟩⟩
    · exact ⟨fun c hc => absurd hc (List.not_mem_nil c), rfl, Nat.zero_le _⟩
  unfold smart_split at hc
  obtain ⟨hout, hlen, hbound⟩ := hinv
  have hgood : goodChunk tok maxT (isOversizedClause tok maxT text) c := by
    rcases List.mem_append.mp hc with hmem | hmem
    · exact hout c hmem
    · set fin := (get_sentence_info tok text).foldl
        (sentenceStep tok maxT targetMin targetMax) ⟨[], [], [], 0⟩
      by_cases he : fin.cur.isEmpty = true
      · rw [if_pos he] at hmem; cases hmem
      · rw [if_neg he, List.mem_singleton] at hmem
        subst hmem
        exact ⟨hlen, Or.inl hbound⟩
  obtain ⟨hl, hb⟩ := hgood
  refine ⟨hl, ?_⟩
  rcases hb with hb | ⟨hlt, u, hu, htk, hP⟩
  · exact Or.inl hb
  · refine Or.inr ⟨u, hu, htk, ?_, hP⟩
    rw [← htk, ← hl]
    exact hlt

/-- C1 witness: with the character tokenizer and the configured limits,
the single chunk produced from `"Hi there."` satisfies the bound. -/
theorem smart_split_chunk_bounds_witness :
    (250 : Nat) ≤ 450 ∧
      (⟨["Hi there.".data], charTok "Hi there.".data, 9⟩ : Chunk) ∈
        smart_split charTok 450 175 250 "Hi there.".data ∧
      ((⟨["Hi there.".data], charTok "Hi there.".data, 9⟩ : Chunk).count =
          (⟨["Hi there.".data], charTok "Hi there.".data, 9⟩ : Chunk).tokens.length ∧
        ((⟨["Hi there.".data], charTok "Hi there.".data, 9⟩ : Chunk).count ≤ 450 ∨
          ∃ u, (⟨["Hi there.".data], charTok "Hi there.".data, 9⟩ : Chunk).units = [u] ∧
            (⟨["Hi there.".data], charTok "Hi there.".data, 9⟩ : Chunk).tokens = charTok u ∧
            450 < (charTok u).length ∧
            isOversizedClause charTok 450 "Hi there.".data u)) :=
  ⟨by decide, by decide,
   smart_split_chunk_bounds charTok 450 175 250 "Hi there.".data (by decide)
     ⟨["Hi there.".data], charTok "Hi there.".data, 9⟩ (by decide)⟩

/-! ## Model lifecycle: `model_manager.py` -/

/-! ### `ModelManager.unload_all` (claim C5) -/

/-- The manager state `unload_all` touches: the `_backend` reference
(instance ids stand for `KokoroV1` objects) and a counter of
`backend.unload()` invocations (the only side effect). -/
structure MMState where
  backend : Option Nat
  backendUnloadCalls : Nat
deriving DecidableEq

/-- `unload_all`: `if self._backend: self._backend.unload(); self._backend = None`.
A total function — no exception path of its own. -/
def unload_all (s : MMState) : MMState :=
  match s.backend with
  | some _ => { backend := none, backendUnloadCalls := s.backendUnloadCalls + 1 }
  | none => s

/-- C5: `unload_all` is idempotent — the second of two consecutive calls is
a no-op, a call on an already-unloaded manager is a no-op (so raises
nothing), and after any call the backend reference is `None`. -/
theorem unload_all_idempotent (s : MMState) :
    unload_all (unload_all s) = unload_all s ∧
      (unload_all s).backend = none ∧
      (s.backend = none → unload_all s = s) := by
  rcases hb : s.backend with _ | b
  · exact ⟨by simp [unload_all, hb], by simp [unload_all, hb], fun _ => by simp [unload_all, hb]⟩
  · refine ⟨?_, ?_, ?_⟩
    · simp [unload_all, hb]
    · simp [unload_all, hb]
    · intro h
      simp [hb] at h

/-- C5 witness: a loaded manager with one prior unload call. -/
theorem unload_all_idempotent_witness :
    unload_all (unload_all ⟨some 7, 1⟩) = unload_all ⟨some 7, 1⟩ ∧
      (unload_all (⟨some 7, 1⟩ : MMState)).backend = none ∧
      ((⟨none, 3⟩ : MMState).backend = none → unload_all ⟨none, 3⟩ = ⟨none, 3⟩) :=
  ⟨(unload_all_idempotent ⟨some 7, 1⟩).1,
   (unload_all_idempotent ⟨some 7, 1⟩).2.1,
   (unload_all_idempotent ⟨none, 3⟩).2.2⟩

/-! ### `get_manager` (claim C10) -/

/-- A constructed `ModelManager`: a fresh identity plus the configuration
captured at construction (`self._config = config or model_config`). -/
structure MgrInst where
  id : Nat
  config : Nat
deriving DecidableEq

/-- The module-level default `model_config`. -/
def model_config : Nat := 0

/-- The process-wide cell `ModelManager._instance` plus a supply of fresh
object identities. -/
structure MgrGlobal where
  instRef : Option MgrInst
  nextId : Nat
deriving DecidableEq

/-- `get_manager(config)`: construct the singleton on first call, return
the cached instance afterwards (the `config` argument is then ignored). -/
def get_manager (cfg : Option Nat) (g : MgrGlobal) : MgrInst × MgrGlobal :=
  match g.instRef with
  | some m => (m, g)
  | none =>
    let m : MgrInst := ⟨g.nextId, cfg.getD model_config⟩
    (m, ⟨some m, g.nextId + 1⟩)

/-- A sequence of `get_manager` calls, returning the manager each call
observed. -/
def run_get_manager : List (Option Nat) → MgrGlobal → List MgrInst
  | [], _ => []
  | cfg :: rest, g =>
    let p := get_manager cfg g
    p.1 :: run_get_manager rest p.2

theorem run_get_manager_cached {m : MgrInst} :
    ∀ (cfgs : List (Option Nat)) {g : MgrGlobal}, g.instRef = some m →
      run_get_manager cfgs g = List.replicate cfgs.length m := by
  intro cfgs
  induction cfgs with
  | nil => intro g _; rfl
  | cons cfg rest ih =>
    intro g hg
    unfold run_get_manager get_manager
    rw [hg]
    simp [List.replicate_succ, ih hg]

/-- C10: starting from an empty `_instance` cell, every call in a sequence
of `get_manager` calls returns the very manager constructed on the first
call, whose configuration is the first call's (`config or model_config`);
configs passed on later calls have no effect. -/
theorem get_manager_singleton (cfg0 : Option Nat) (cfgs : List (Option Nat))
    (n0 : Nat) :
    run_get_manager (cfg0 :: cfgs) ⟨none, n0⟩ =
      List.replicate (cfgs.length + 1) ⟨n0, cfg0.getD model_config⟩ := by
  unfold run_get_manager get_manager
  simp only
  rw [List.replicate_succ]
  exact congrArg _ (run_get_manager_cached cfgs rfl)

/-! ### `ModelManager.initialize_with_warmup` (claim C4) -/

/-- Outcome of `self._backend.load_model(path)` as seen by
`ModelManager.load_model`: success, `FileNotFoundError` (weights absent),
or any other exception. -/
inductive LoadOutcome
  | ok
  | fileNotFound
  | otherFailure
deriving DecidableEq

/-- How `initialize_with_warmup` terminates: normally, by raising a
`RuntimeError` to its caller, by raising the original `FileNotFoundError`
to its caller, or by calling `exit(code)` (a `SystemExit` terminating the
process). -/
inductive WarmupResult
  | success
  | raisedRuntimeError
  | raisedFileNotFound
  | processExit (code : Nat)
deriving DecidableEq

/-- Observable effects of one `initialize_with_warmup` call: how many times
the backend's weight load was attempted, whether the model-files-missing
message was logged, and how the call terminated. -/
structure WarmupTrace where
  loadAttempts : Nat
  loggedModelMissing : Bool
  result : WarmupResult
deriving DecidableEq

/-- `initialize_with_warmup(voice_manager)` over the outcomes of its three
stages. `initialize()` wraps any of its own failures in `RuntimeError`, so
only the direct `load_model` call can surface `FileNotFoundError`; that
handler logs the download instructions and calls `exit(0)`; every other
exception is re-raised as `RuntimeError("Warmup failed: ...")`. -/
def initialize_with_warmup (initOk : Bool) (load : LoadOutcome)
    (warmupOk : Bool) : WarmupTrace :=
  if !initOk then ⟨0, false, .raisedRuntimeError⟩
  else
    match load with
    | .fileNotFound => ⟨1, true, .processExit 0⟩
    | .otherFailure => ⟨1, false, .raisedRuntimeError⟩
    | .ok => if warmupOk then ⟨1, false, .success⟩ else ⟨1, false, .raisedRuntimeError⟩

/-- C4 counterexample: when the weight files are missing, the error is NOT
propagated to the caller (neither the original `FileNotFoundError` nor a
`RuntimeError`); the handler logs and terminates the whole process via
`exit(0)` — a success exit code. -/
theorem warmup_missing_weights_not_propagated :
    (initialize_with_warmup true .fileNotFound true).result = .processExit 0 ∧
      (initialize_with_warmup true .fileNotFound true).result ≠ .raisedFileNotFound ∧
      (initialize_with_warmup true .fileNotFound true).result ≠ .raisedRuntimeError := by
  decide

/-- C4 amended: on missing weight files the failure is terminal for the
whole process — the operator message is logged, the weight load is
attempted exactly once (no automatic retry, no further side effects), and
the call ends in `exit(0)` (`SystemExit`) instead of propagating the error
to the caller. -/
theorem warmup_missing_weights_exits (warmupOk : Bool) :
    initialize_with_warmup true .fileNotFound warmupOk =
      ⟨1, true, .processExit 0⟩ := rfl

/-! ### `ModelManager.generate` activity/reload prefix (claim C8) -/

/-- The events of one `generate` call, in execution order. -/
inductive GenEvent
  | updateActivity
  | initializeBackend
  | loadModel
  | delegate
deriving DecidableEq

/-- The manager state `generate`'s synchronous prefix reads and writes:
the backend reference (with its `is_loaded` flag) and the activity
timestamp. -/
structure GenMState where
  backend : Option Bool
  lastActivity : Nat
deriving DecidableEq

/-- The reload guard of `generate`:
`self._backend is None or not self._backend.is_loaded`. -/
def needsReload : Option Bool → Bool
  | none => true
  | some loaded => !loaded

/-- One `generate(...)` call at wall-clock `now`, up to the delegation to
`self._backend.generate`: `_update_activity_timestamp()` runs first, then
the reload check, then (when needed) `initialize()` + `load_model(...)`,
then delegation. Returns the new state and the ordered event list. -/
def generate_call (now : Nat) (s : GenMState) : GenMState × List GenEvent :=
  let s1 : GenMState := { s with lastActivity := now }
  if needsReload s1.backend then
    ({ backend := some true, lastActivity := now },
      [.updateActivity, .initializeBackend, .loadModel, .delegate])
  else
    (s1, [.updateActivity, .delegate])

/-- C8: every `generate` call performs the activity-clock update as its
first action and sets the clock to the call time (hence the clock is
non-decreasing across calls when wall-clock time is); when the backend is
absent or not loaded it reloads inline — initialize then load, both before
delegation — and the backend is loaded afterwards. -/
theorem generate_activity_first_and_inline_reload (now : Nat) (s : GenMState) :
    (generate_call now s).2.head? = some .updateActivity ∧
      (generate_call now s).1.lastActivity = now ∧
      (s.lastActivity ≤ now →
        s.lastActivity ≤ (generate_call now s).1.lastActivity) ∧
      (s.backend = none ∨ s.backend = some false →
        (generate_call now s).2 =
            [.updateActivity, .initializeBackend, .loadModel, .delegate] ∧
          (generate_call now s).1.backend = some true) ∧
      (s.backend = some true → (generate_call now s).2 = [.updateActivity, .delegate]) := by
  rcases hb : s.backend with _ | l
  · exact ⟨by simp [generate_call, needsReload, hb],
      by simp [generate_call, needsReload, hb],
      fun h => by simpa [generate_call, needsReload, hb] using h,
      fun _ => by simp [generate_call, needsReload, hb],
      fun h => by simp [hb] at h⟩
  · cases l
    · exact ⟨by simp [generate_call, needsReload, hb],
        by simp [generate_call, needsReload, hb],
        fun h => by simpa [generate_call, needsReload, hb] using h,
        fun _ => by simp [generate_call, needsReload, hb],
        fun h => by simp [hb] at h⟩
    · refine ⟨by simp [generate_call, needsReload, hb],
        by simp [generate_call, needsReload, hb],
        fun h => by simpa [generate_call, needsReload, hb] using h,
        ?_, fun _ => by simp [generate_call, needsReload, hb]⟩
      intro h
      rcases h with h | h <;> simp [hb] at h

/-- C8 witness: a call at time 5 on an unloaded manager last active at 3. -/
theorem generate_activity_first_and_inline_reload_witness :
    (generate_call 5 ⟨none, 3⟩).2.head? = some .updateActivity ∧
      (generate_call 5 ⟨none, 3⟩).1.lastActivity = 5 ∧
      ((3 : Nat) ≤ 5 ∧ (3 : Nat) ≤ (generate_call 5 ⟨none, 3⟩).1.lastActivity) ∧
      ((generate_call 5 ⟨none, 3⟩).2 =
          [.updateActivity, .initializeBackend, .loadModel, .delegate] ∧
        (generate_call 5 ⟨none, 3⟩).1.backend = some true) :=
  ⟨(generate_activity_first_and_inline_reload 5 ⟨none, 3⟩).1,
   (generate_activity_first_and_inline_reload 5 ⟨none, 3⟩).2.1,
   ⟨by decide, (generate_activity_first_and_inline_reload 5 ⟨none, 3⟩).2.2.1 (by decide)⟩,
   (generate_activity_first_and_inline_reload 5 ⟨none, 3⟩).2.2.2.1 (Or.inl rfl)⟩

/-! ### Concurrent initialize-and-load (claim C6)

Two transition systems, one per code path the claim cites. Atomic steps
are the synchronous blocks between `await` suspension points of the
single-threaded asyncio event loop.

The reload path of `ModelManager.generate` (`if self._backend is None or
not self._backend.is_loaded: await self.initialize(); ...
await self.load_model(...)`) takes no lock: the check, the `KokoroV1()`
construction and the start of the weight load form one synchronous block,
and the backend's `load_model` await is the suspension point. -/

/-- Program counter of one caller inside `generate`'s reload path. -/
inductive GPc
  | start              -- before the synchronous reload check
  | loading (id : Nat) -- suspended in `await self._backend.load_model(...)`
  | ready              -- past the reload block
deriving DecidableEq

/-- Shared manager state plus per-caller program counters for the
`generate` reload path. -/
structure GSys where
  backend : Option Nat  -- `ModelManager._backend`: id of the installed instance
  loadedIds : List Nat  -- instances whose weight load has completed
  nextId : Nat
  loadCalls : Nat       -- invocations of the backend capability's load
  createCalls : Nat     -- `KokoroV1()` constructions
  pcs : List GPc
deriving DecidableEq

/-- `self._backend is None or not self._backend.is_loaded`, negated. -/
def gIsLoaded (s : GSys) : Bool :=
  match s.backend with
  | none => false
  | some id => s.loadedIds.contains id

/-- One cooperative step of caller `t` on the reload path. -/
def gstep (s : GSys) (t : Nat) : GSys :=
  match s.pcs.get? t with
  | none => s
  | some .start =>
    if gIsLoaded s then { s with pcs := s.pcs.set t .ready }
    else
      { s with
        backend := some s.nextId
        nextId := s.nextId + 1
        createCalls := s.createCalls + 1
        loadCalls := s.loadCalls + 1
        pcs := s.pcs.set t (.loading s.nextId) }
  | some (.loading id) =>
    { s with loadedIds := id :: s.loadedIds, pcs := s.pcs.set t .ready }
  | some .ready => s

/-- Run a schedule (list of caller indices) from a state. -/
def grun (sched : List Nat) (s : GSys) : GSys := sched.foldl gstep s

/-- Two concurrent callers, backend unloaded. -/
def ginit2 : GSys := ⟨none, [], 0, 0, 0, [.start, .start]⟩

/-- C6 counterexample: with two simultaneous callers on the unguarded
reload path of `generate` and the interleaving "caller 0 checks and starts
loading; caller 1 checks (sees a not-yet-loaded backend) and also
constructs and starts loading; both loads complete", the backend capability
receives TWO load invocations and TWO `KokoroV1` instances are constructed,
although both callers return with a loaded backend — refuting "exactly one
load invocation" and "at most one backend instance". -/
theorem generate_reload_double_load :
    (grun [0, 1, 0, 1] ginit2).loadCalls = 2 ∧
      (grun [0, 1, 0, 1] ginit2).createCalls = 2 ∧
      (grun [0, 1, 0, 1] ginit2).pcs = [.ready, .ready] := by
  decide

/-! The service-initialization path (`get_tts_service`) IS guarded: a
double-checked `asyncio.Lock`. Modelled with unboundedly many concurrent
callers (`pcs : Nat → SPc`, all starting). -/

/-- Program counter of one caller inside `get_tts_service`. -/
inductive SPc
  | start    -- before the unguarded `_tts_service is None` check
  | waitLock -- blocked in `async with _init_lock`
  | locked   -- holding the lock, before the double check
  | creating -- suspended in `await TTSService.create()`
  | done     -- returned
deriving DecidableEq

/-- Shared state of `get_tts_service`: the lock, the `_tts_service` cell
(abstracted to whether it is set), and the number of `TTSService.create`
invocations. -/
structure TSys where
  lockHolder : Option Nat
  service : Bool
  createCalls : Nat
  pcs : Nat → SPc

/-- Pointwise update of the program-counter map. -/
def pupd (p : Nat → SPc) (t : Nat) (v : SPc) : Nat → SPc :=
  fun u => if u = t then v else p u

theorem pupd_same (p : Nat → SPc) (t : Nat) (v : SPc) : pupd p t v t = v := by
  simp [pupd]

theorem pupd_other (p : Nat → SPc) {u t : Nat} (v : SPc) (h : u ≠ t) :
    pupd p t v u = p u := by
  simp [pupd, h]

/-- One cooperative step of caller `t` in `get_tts_service`. Scheduling a
blocked or finished caller is a no-op. -/
def tstep (s : TSys) (t : Nat) : TSys :=
  match s.pcs t with
  | .start =>
    if s.service then { s with pcs := pupd s.pcs t .done }
    else { s with pcs := pupd s.pcs t .waitLock }
  | .waitLock =>
    match s.lockHolder with
    | some _ => s
    | none => { s with lockHolder := some t, pcs := pupd s.pcs t .locked }
  | .locked =>
    if s.service then { s with lockHolder := none, pcs := pupd s.pcs t .done }
    else { s with createCalls := s.createCalls + 1, pcs := pupd s.pcs t .creating }
  | .creating =>
    { s with service := true, lockHolder := none, pcs := pupd s.pcs t .done }
  | .done => s

def trun (sched : List Nat) (s : TSys) : TSys := sched.foldl tstep s

/-- All callers poised to call `get_tts_service`, no service yet. -/
def tinit : TSys := ⟨none, false, 0, fun _ => .start⟩

/-- Inductive invariant of the `get_tts_service` system: at most one
creation ever starts; a creating caller holds the lock, saw no service,
and accounts for the one creation; locked callers hold the lock; a set
service accounts for the one creation; any returned caller saw a set
service. -/
def tinv (s : TSys) : Prop :=
  s.createCalls ≤ 1 ∧
    (∀ t, s.pcs t = .creating →
      s.lockHolder = some t ∧ s.service = false ∧ s.createCalls = 1) ∧
    (∀ t, s.pcs t = .locked → s.lockHolder = some t) ∧
    (s.service = true → s.createCalls = 1) ∧
    (s.createCalls = 1 → s.service = true ∨ ∃ t, s.pcs t = .creating) ∧
    (∀ t, s.pcs t = .done → s.service = true)

theorem tinv_init : tinv tinit := by
  refine ⟨Nat.zero_le _, ?_, ?_, ?_, ?_, ?_⟩
  · intro t ht; simp [tinit] at ht
  · intro t ht; simp [tinit] at ht
  · intro ht; simp [tinit] at ht
  · intro ht; simp [tinit] at ht
  · intro t ht; simp [tinit] at ht

theorem tinv_step {s : TSys} (h : tinv s) (t : Nat) : tinv (tstep s t) := by
  obtain ⟨h1, h2, h3, h4, h5, h6⟩ := h
  unfold tstep
  rcases hpc : s.pcs t with _ | _ | _ | _ | _ <;> dsimp only
  -- s.pcs t = .start
  · by_cases hs : s.service = true
    · rw [if_pos hs]
      refine ⟨h1, ?_, ?_, h4, fun _ => Or.inl hs, fun u _ => hs⟩
      · intro u hu
        dsimp only at hu
        by_cases het : u = t
        · rw [het, pupd_same] at hu; cases hu
        · rw [pupd_other _ _ het] at hu
          exact h2 u hu
      · intro u hu
        dsimp only at hu
        by_cases het : u = t
        · rw [het, pupd_same] at hu; cases hu
        · rw [pupd_other _ _ het] at hu
          exact h3 u hu
    · rw [if_neg hs]
      refine ⟨h1, ?_, ?_, h4, ?_, ?_⟩
      · intro u hu
        dsimp only at hu
        by_cases het : u = t
        · rw [het, pupd_same] at hu; cases hu
        · rw [pupd_other _ _ het] at hu
          exact h2 u hu
      · intro u hu
        dsimp only at hu
        by_cases het : u = t
        · rw [het, pupd_same] at hu; cases hu
        · rw [pupd_other _ _ het] at hu
          exact h3 u hu
      · intro hc
        dsimp only at hc
        rcases h5 hc with hsv | ⟨u, hu⟩
        · exact Or.inl hsv
        · by_cases het : u = t
          · rw [het, hpc] at hu; cases hu
          · refine Or.inr ⟨u, ?_⟩
            dsimp only
            rw [pupd_other _ _ het]
            exact hu
      · intro u hu
        dsimp only at hu
        by_cases het : u = t
        · rw [het, pupd_same] at hu; cases hu
        · rw [pupd_other _ _ het] at hu
          exact h6 u hu
  -- s.pcs t = .waitLock
  · rcases hl : s.lockHolder with _ | v <;> dsimp only
    · refine ⟨h1, ?_, ?_, h4, ?_, ?_⟩
      · intro u hu
        dsimp only at hu
        by_cases het : u = t
        · rw [het, pupd_same] at hu; cases hu
        · rw [pupd_other _ _ het] at hu
          obtain ⟨ha, -, -⟩ := h2 u hu
          rw [hl] at ha; cases ha
      · intro u hu
        dsimp only at hu
        by_cases het : u = t
        · dsimp only
          rw [het]
        · rw [pupd_other _ _ het] at hu
          have ha := h3 u hu
          rw [hl] at ha; cases ha
      · intro hc
        dsimp only at hc
        rcases h5 hc with hsv | ⟨u, hu⟩
        · exact Or.inl hsv
        · obtain ⟨ha, -, -⟩ := h2 u hu
          rw [hl] at ha; cases ha
      · intro u hu
        dsimp only at hu
        by_cases het : u = t
        · rw [het, pupd_same] at hu; cases hu
        · rw [pupd_other _ _ het] at hu
          exact h6 u hu
    · exact ⟨h1, h2, h3, h4, h5, h6⟩
  -- s.pcs t = .locked
  · have hlt := h3 t hpc
    by_cases hs : s.service = true
    · rw [if_pos hs]
      refine ⟨h1, ?_, ?_, h4, fun _ => Or.inl hs, fun u _ => hs⟩
      · intro u hu
        dsimp only at hu
        by_cases het : u = t
        · rw [het, pupd_same] at hu; cases hu
        · rw [pupd_other _ _ het] at hu
          obtain ⟨-, hb, -⟩ := h2 u hu
          rw [hs] at hb; cases hb
      · intro u hu
        dsimp only at hu
        by_cases het : u = t
        · rw [het, pupd_same] at hu; cases hu
        · rw [pupd_other _ _ het] at hu
          have ha := h3 u hu
          rw [hlt] at ha
          injection ha with ha
          exact absurd ha.symm het
    · rw [if_neg hs]
      have hnotcreating : ∀ u, s.pcs u ≠ .creating := by
        intro u hu
        obtain ⟨ha, -, -⟩ := h2 u hu
        rw [hlt] at ha
        injection ha with ha
        rw [← ha, hpc] at hu
        cases hu
      have hzero : s.createCalls = 0 := by
        rcases Nat.lt_or_ge s.createCalls 1 with hlt2 | hge
        · omega
        · exfalso
          rcases h5 (Nat.le_antisymm h1 hge) with hsv | ⟨u, hu⟩
          · exact absurd hsv hs
          · exact absurd hu (hnotcreating u)
      refine ⟨?_, ?_, ?_, fun hsv => absurd hsv hs,
        fun _ => Or.inr ⟨t, pupd_same _ _ _⟩, ?_⟩
      · show s.createCalls + 1 ≤ 1
        omega
      · intro u hu
        dsimp only at hu
        by_cases het : u = t
        · subst het
          refine ⟨hlt, ?_, ?_⟩
          · show s.service = false
            simpa using hs
          · show s.createCalls + 1 = 1
            omega
        · rw [pupd_other _ _ het] at hu
          exact absurd hu (hnotcreating u)
      · intro u hu
        dsimp only at hu
        by_cases het : u = t
        · rw [het, pupd_same] at hu; cases hu
        · rw [pupd_other _ _ het] at hu
          exact h3 u hu
      · intro u hu
        dsimp only at hu
        by_cases het : u = t
        · rw [het, pupd_same] at hu; cases hu
        · rw [pupd_other _ _ het] at hu
          exact h6 u hu
  -- s.pcs t = .creating
  · obtain ⟨hlock, hnosvc, hone⟩ := h2 t hpc
    refine ⟨h1, ?_, ?_, fun _ => hone, fun _ => Or.inl rfl, fun u _ => rfl⟩
    · intro u hu
      dsimp only at hu
      by_cases het : u = t
      · rw [het, pupd_same] at hu; cases hu
      · rw [pupd_other _ _ het] at hu
        obtain ⟨ha, -, -⟩ := h2 u hu
        rw [hlock] at ha
        injection ha with ha
        exact absurd ha.symm het
    · intro u hu
      dsimp only at hu
      by_cases het : u = t
      · rw [het, pupd_same] at hu; cases hu
      · rw [pupd_other _ _ het] at hu
        have ha := h3 u hu
        rw [hlock] at ha
        injection ha with ha
        rw [← ha, hpc] at hu
        cases hu
  -- s.pcs t = .done
  · exact ⟨h1, h2, h3, h4, h5, h6⟩

theorem tinv_run (sched : List Nat) :
    ∀ (s : TSys), tinv s → tinv (trun sched s) := by
  induction sched with
  | nil => intro s h; exact h
  | cons t rest ih =>
    intro s h
    exact ih (tstep s t) (tinv_step h t)

/-- C6 amended: the exactly-once guarantee the code provides sits in
`get_tts_service`, whose double-checked `asyncio.Lock` ensures that for any
number of concurrent callers and every interleaving, `TTSService.create`
is invoked at most once — and exactly once by the time any caller has
returned. (`ModelManager.generate`'s reload path has no such guard; see the
counterexample.) -/
theorem tts_service_created_once (sched : List Nat) :
    (trun sched tinit).createCalls ≤ 1 ∧
      ∀ t, (trun sched tinit).pcs t = .done →
        (trun sched tinit).createCalls = 1 := by
  obtain ⟨h1, h2, h3, h4, h5, h6⟩ := tinv_run sched tinit tinv_init
  exact ⟨h1, fun t ht => h4 (h6 t ht)⟩

/-- C6 amended witness: the schedule that runs caller 0 to completion
creates the service exactly once. -/
theorem tts_service_created_once_witness :
    (trun [0, 0, 0, 0] tinit).createCalls ≤ 1 ∧
      ((trun [0, 0, 0, 0] tinit).pcs 0 = .done ∧
        (trun [0, 0, 0, 0] tinit).createCalls = 1) :=
  ⟨(tts_service_created_once [0, 0, 0, 0]).1,
   by decide,
   (tts_service_created_once [0, 0, 0, 0]).2 0 (by decide)⟩

/-! ### Idle watchdog vs. `generate` (claim C9)

`unload_all` contains no `await`, so `self._backend.unload()` and
`self._backend = None` form one atomic step of the event loop; the
watchdog's whole post-sleep body (`if self._backend and
self._backend.is_loaded: ... self.unload_all()`) is likewise one
synchronous block. `generate`'s reload check is synchronous too, but its
delegation to `self._backend.generate(...)` suspends between yielded
buffers — which is where the watchdog can run. -/

/-- A `KokoroV1` instance: identity, `is_loaded`, and whether `unload()`
has run on it. -/
structure BInst where
  id : Nat
  loaded : Bool
  released : Bool
deriving DecidableEq

/-- Scheduler actions: the synchronous prefix of a `generate` call at time
`now`, one suspension inside its delegation, the end of the call, and one
watchdog wake-up at time `now`. -/
inductive WAct
  | genStart (now : Nat)
  | genYield
  | genEnd
  | wake (now : Nat)
deriving DecidableEq

/-- Manager state as shared between `generate` and the idle watchdog,
plus observations: whether `generate`'s reload check ever saw a released
(mid-unload) instance, and one `(was loaded, call in flight)` record per
watchdog unload. -/
structure W9 where
  backend : Option BInst
  lastActivity : Nat
  inCall : Bool
  nextId : Nat
  observedReleased : Bool
  unloadEvents : List (Bool × Bool)
deriving DecidableEq

/-- `IDLE_TIMEOUT_SECONDS` default. -/
def idleTimeout : Nat := 300

/-- One atomic step. `genStart` is `generate`'s synchronous prefix:
activity update, reload check (recording what it observed), inline reload
when needed. `wake` is the watchdog body: unload only when a backend is
installed, loaded, and idle past the timeout — `unload()` plus clearing
the reference happen in this single step, faithfully to the source's
`unload_all` having no suspension point. -/
def wstep (s : W9) : WAct → W9
  | .genStart now =>
    let obs := match s.backend with
      | some b => b.released
      | none => false
    let s1 := { s with
      lastActivity := now
      observedReleased := s.observedReleased || obs }
    match s1.backend with
    | some b =>
      if b.loaded then { s1 with inCall := true }
      else
        { s1 with
          backend := some ⟨s1.nextId, true, false⟩
          nextId := s1.nextId + 1
          inCall := true }
    | none =>
      { s1 with
        backend := some ⟨s1.nextId, true, false⟩
        nextId := s1.nextId + 1
        inCall := true }
  | .genYield => s
  | .genEnd => { s with inCall := false }
  | .wake now =>
    match s.backend with
    | some b =>
      if b.loaded ∧ idleTimeout < now - s.lastActivity then
        { s with
          backend := none
          unloadEvents := (b.loaded, s.inCall) :: s.unloadEvents }
      else s
    | none => s

def wrun (acts : List WAct) (s : W9) : W9 := acts.foldl wstep s

/-- A loaded backend, last active at time 0, no call in flight. -/
def winit : W9 := ⟨some ⟨0, true, false⟩, 0, false, 1, false, []⟩

/-- Invariant: no reachable state installs a released instance, every
watchdog unload hit a loaded backend, and `generate` never observed a
released instance. -/
def winv (s : W9) : Prop :=
  (∀ b, s.backend = some b → b.released = false) ∧
    (∀ e ∈ s.unloadEvents, e.1 = true) ∧
    s.observedReleased = false

theorem winv_step {s : W9} (h : winv s) (a : WAct) : winv (wstep s a) := by
  obtain ⟨h1, h2, h3⟩ := h
  cases a with
  | genStart now =>
    unfold wstep
    rcases hb : s.backend with _ | b
    · dsimp only
      refine ⟨?_, h2, by simp [h3]⟩
      intro b' hb'
      dsimp only at hb'
      injection hb' with hb'
      rw [← hb']
    · dsimp only
      have hrel : b.released = false := h1 b hb
      by_cases hl : b.loaded = true
      · rw [if_pos hl]
        refine ⟨?_, h2, by simp [h3, hrel]⟩
        intro b' hb'
        dsimp only at hb'
        injection hb' with hb'
        rw [← hb']
        exact hrel
      · rw [if_neg hl]
        refine ⟨?_, h2, by simp [h3, hrel]⟩
        intro b' hb'
        dsimp only at hb'
        injection hb' with hb'
        rw [← hb']
  | genYield => exact ⟨h1, h2, h3⟩
  | genEnd => exact ⟨h1, h2, h3⟩
  | wake now =>
    unfold wstep
    rcases hb : s.backend with _ | b
    · exact ⟨h1, h2, h3⟩
    · dsimp only
      by_cases hg : b.loaded = true ∧ idleTimeout < now - s.lastActivity
      · rw [if_pos hg]
        refine ⟨?_, ?_, h3⟩
        · intro b' hb'
          dsimp only at hb'
          cases hb'
        · intro e he
          dsimp only at he
          rcases List.mem_cons.mp he with he | he
          · rw [he]
            exact hg.1
          · exact h2 e he
      · rw [if_neg hg]
        exact ⟨h1, h2, h3⟩

theorem winv_run (acts : List WAct) :
    ∀ (s : W9), winv s → winv (wrun acts s) := by
  induction acts with
  | nil => intro s h; exact h
  | cons a rest ih =>
    intro s h
    exact ih (wstep s a) (winv_step h a)

/-- C9 counterexample: a `generate` call starts at time 0 and is still
inside its delegated inference (suspended between yields) when the
watchdog wakes at time 400 > 300; the watchdog unloads the backend even
though an inference call is in flight — refuting "the watchdog only
unloads a backend ... not currently inside an inference call". -/
theorem watchdog_unloads_during_inference :
    (wrun [.genStart 0, .wake 400] winit).unloadEvents = [(true, true)] ∧
      (wrun [.genStart 0, .wake 400] winit).inCall = true := by
  decide

/-- C9 amended: in every interleaving, `generate` never observes the
backend mid-unload (the watchdog's `unload_all` runs atomically between
suspension points, so no reachable state installs a released instance and
the reload check never sees one), and the watchdog only ever unloads a
backend that is Loaded; but the watchdog is NOT excluded from firing while
an inference call is in flight — a call that outlasts the idle timeout can
have its backend unloaded under it, as some schedule reaches. -/
theorem watchdog_atomic_unload_guarded (acts : List WAct) :
    ((∀ b, (wrun acts winit).backend = some b → b.released = false) ∧
        (∀ e ∈ (wrun acts winit).unloadEvents, e.1 = true) ∧
        (wrun acts winit).observedReleased = false) ∧
      ∃ acts2, ∃ e ∈ (wrun acts2 winit).unloadEvents, e.2 = true := by
  refine ⟨winv_run acts winit ⟨?_, ?_, rfl⟩, ⟨[.genStart 0, .wake 400], (true, true), by decide, rfl⟩⟩
  · intro b hb
    injection hb with hb
    rw [← hb]
  · intro e he
    cases he

/-- C9 amended witness: on the schedule that unloads mid-call, the backend
reference afterwards is `None` (never a released instance), and the one
unload event hit a loaded backend. -/
theorem watchdog_atomic_unload_guarded_witness :
    ((true, true) ∈ (wrun [.genStart 0, .wake 400] winit).unloadEvents ∧
        (true, true).1 = true) ∧
      (wrun [.genStart 0, .wake 400] winit).observedReleased = false :=
  ⟨⟨by decide,
    (watchdog_atomic_unload_guarded [.genStart 0, .wake 400]).1.2.1
      (true, true) (by decide)⟩,
   (watchdog_atomic_unload_guarded [.genStart 0, .wake 400]).1.2.2⟩

/-! ## Streaming with persisted copy: `openai_compatible.py` (claim C7)

`dual_output` pulls from `stream_audio_chunks`, which pulls from the
backend source `generate_audio_stream`. Pulling the next item IS the
backend generation for that chunk; the liveness check
(`client_request.is_disconnected`) runs after the pull, before the yield,
and a positive check `break`s — ending the generator normally, which
`dual_output`'s `async for` cannot distinguish from completion. The
`if chunk:` guard skips empty chunks for both the temp write and the
client yield. -/

/-- One item of the backend chunk source: a generated audio chunk, or an
exception raised while producing the next chunk. -/
inductive SrcItem
  | chunk (data : List Nat)
  | genError
deriving DecidableEq

/-- Observable outcome of one streamed request with a persisted copy. -/
structure DualResult where
  generated : Nat             -- chunks the backend source produced
  forwarded : List (List Nat) -- written to the temp artifact and yielded to the client
  finalized : Bool            -- `temp_writer.finalize()` ran
  raised : Bool               -- an exception propagated out of `dual_output`
deriving DecidableEq

/-- The composed `dual_output` ∘ `stream_audio_chunks` pipeline. `k` is
when the liveness signal turns disconnected: it reports connected at a
check following fewer than `k` yields and disconnected from the `k`-th
yield on; `y` counts yields so far. -/
def runDual (k : Nat) : Nat → List SrcItem → DualResult
  | _, [] => ⟨0, [], true, false⟩
  | _, .genError :: _ => ⟨0, [], false, true⟩
  | y, .chunk c :: rest =>
    if k ≤ y then ⟨1, [], true, false⟩
    else
      let r := runDual k (y + 1) rest
      ⟨r.generated + 1, (if c.isEmpty then [] else [c]) ++ r.forwarded,
        r.finalized, r.raised⟩

/-- Five one-sample chunks. -/
def chunks5 : List SrcItem :=
  [.chunk [1], .chunk [2], .chunk [3], .chunk [4], .chunk [5]]

/-- C7 counterexample: the client disconnects after chunk 2 of 5, yet the
backend generates chunk 3 (the liveness check runs only after the next
chunk has been pulled) and the temp artifact IS finalized (the
disconnect `break` ends the generator normally, so `dual_output` reaches
`temp_writer.finalize()`) — refuting both "no backend generation is
started for chunks k+1..n" and "the artifact is never marked finalized". -/
theorem stream_disconnect_generates_next_and_finalizes :
    (runDual 2 0 chunks5).generated = 3 ∧
      (runDual 2 0 chunks5).finalized = true ∧
      (runDual 2 0 chunks5).forwarded = [[1], [2]] := by
  decide

theorem runDual_disconnect :
    ∀ (cs : List (List Nat)) (k y : Nat), y ≤ k → k - y < cs.length →
      runDual k y (cs.map .chunk) =
        ⟨k - y + 1, (cs.take (k - y)).filter (fun c => !c.isEmpty), true, false⟩ := by
  intro cs
  induction cs with
  | nil =>
    intro k y _ hlen
    simp at hlen
  | cons c rest ih =>
    intro k y hy hlen
    by_cases hky : k ≤ y
    · have hz : k - y = 0 := by omega
      rw [hz]
      simp only [List.map_cons, runDual, if_pos hky, List.take_zero, List.filter_nil]
    · have hpos : 1 ≤ k - y := by omega
      obtain ⟨m, hm⟩ : ∃ m, k - y = m + 1 := ⟨k - y - 1, by omega⟩
      have hm2 : k - (y + 1) = m := by omega
      simp only [List.map_cons, runDual, if_neg hky]
      rw [ih k (y + 1) (by omega) (by simp at hlen ⊢; omega), hm2, hm]
      simp only [List.take_succ_cons, List.filter_cons]
      by_cases hce : c.isEmpty
      · simp [hce]
      · simp [hce]
  
theorem runDual_complete :
    ∀ (cs : List (List Nat)) (k y : Nat), y + cs.length ≤ k →
      runDual k y (cs.map .chunk) =
        ⟨cs.length, cs.filter (fun c => !c.isEmpty), true, false⟩ := by
  intro cs
  induction cs with
  | nil =>
    intro k y _
    rfl
  | cons c rest ih =>
    intro k y hk
    have hky : ¬k ≤ y := by simp at hk; omega
    simp only [List.map_cons, runDual, if_neg hky]
    rw [ih k (y + 1) (by simp at hk ⊢; omega)]
    simp only [List.length_cons, List.filter_cons]
    by_cases hce : c.isEmpty
    · simp [hce]
    · simp [hce]

theorem runDual_error :
    ∀ (pre : List (List Nat)) (rest : List SrcItem) (k y : Nat),
      y + pre.length ≤ k →
      runDual k y (pre.map .chunk ++ .genError :: rest) =
        ⟨pre.length, pre.filter (fun c => !c.isEmpty), false, true⟩ := by
  intro pre
  induction pre with
  | nil =>
    intro rest k y _
    rfl
  | cons c pre2 ih =>
    intro rest k y hk
    have hky : ¬k ≤ y := by simp at hk; omega
    simp only [List.map_cons, List.cons_append, runDual, if_neg hky, List.append_eq]
    rw [ih rest k (y + 1) (by simp at hk ⊢; omega)]
    simp only [List.length_cons, List.filter_cons]
    by_cases hce : c.isEmpty
    · simp [hce]
    · simp [hce]

/-- C7 amended: for a streamed request with a persisted copy over `n`
chunks, if the liveness signal reports disconnected after chunk `k`
(`k < n`), the backend generates exactly one further chunk (`k+1`) before
the disconnect is noticed — chunks `k+2..n` are never generated and chunk
`k+1` is neither sent nor persisted — and the temp artifact IS finalized,
because the disconnect `break` ends the stream the same way completion
does; a full run without disconnect forwards every non-empty chunk and
finalizes; the artifact is left non-finalized exactly when an exception
occurs mid-stream, which is re-raised after closing the writer. -/
theorem stream_disconnect_and_finalize_behavior
    (cs : List (List Nat)) (k n2 : Nat) (pre : List (List Nat))
    (rest : List SrcItem) :
    (k < cs.length →
        runDual k 0 (cs.map .chunk) =
          ⟨k + 1, (cs.take k).filter (fun c => !c.isEmpty), true, false⟩) ∧
      (cs.length ≤ n2 →
        runDual n2 0 (cs.map .chunk) =
          ⟨cs.length, cs.filter (fun c => !c.isEmpty), true, false⟩) ∧
      (pre.length ≤ k →
        runDual k 0 (pre.map .chunk ++ .genError :: rest) =
          ⟨pre.length, pre.filter (fun c => !c.isEmpty), false, true⟩) := by
  refine ⟨?_, ?_, ?_⟩
  · intro hk
    have := runDual_disconnect cs k 0 (Nat.zero_le _) (by omega)
    simpa using this
  · intro hn
    exact runDual_complete cs n2 0 (by omega)
  · intro hpre
    exact runDual_error pre rest k 0 (by omega)

/-- C7 amended witness: disconnect after chunk 1 of 3; completion of 2
chunks with a generous liveness bound; an error after one chunk. -/
theorem stream_disconnect_and_finalize_behavior_witness :
    ((1 : Nat) < 3 ∧
        runDual 1 0 ([[1], [2], [3]].map .chunk) = ⟨2, [[1]], true, false⟩) ∧
      ((2 : Nat) ≤ 5 ∧
        runDual 5 0 ([[1], [2]].map .chunk) = ⟨2, [[1], [2]], true, false⟩) ∧
      ((1 : Nat) ≤ 1 ∧
        runDual 1 0 ([[9]].map .chunk ++ .genError :: []) =
          ⟨1, [[9]], false, true⟩) :=
  ⟨⟨by decide,
    by simpa using
      (stream_disconnect_and_finalize_behavior [[1], [2], [3]] 1 0 [] []).1 (by decide)⟩,
   ⟨by decide,
    by simpa using
      (stream_disconnect_and_finalize_behavior [[1], [2]] 0 5 [] []).2.1 (by decide)⟩,
   ⟨by decide,
    by simpa using
      (stream_disconnect_and_finalize_behavior [] 1 0 [[9]] []).2.2 (by decide)⟩⟩

end KokoroTTS
